import Mathlib

/-!
Shallow embedding of the MNIST decode-and-batch pipeline
(`mnistCore`: `loadHeaderValues`, `loadImages`, `loadLabels`, and the
`MnistDataset` class with `loadData`, `getTrainData`, `getTestData`,
`getData_`).

Modelling conventions:
- A `Buffer` of raw bytes is a `List Nat` (each entry an unsigned byte).
- `Float32Array` pixel values are modelled as exact rationals (`ℚ`);
  the normalization `byte / 255.0` becomes `(byte : ℚ) / 255`.
- `Int32Array` label values are modelled as `Nat` (the decoder only ever
  stores unsigned bytes in them).
- Out-of-range typed-array reads (`Buffer.readUInt8`, `readUInt32BE`)
  throw in the source; here they return `Except.error .outOfRange`.
- Indexing a JS array past its end yields `undefined`, and passing that
  to `TypedArray.set` throws a `TypeError`; modelled as `.error .typeError`.
- `TypedArray.set(src, offset)` throws a `RangeError` when the source does
  not fit; modelled as `.error .outOfRange`.
- The `while` loops advance their index by a positive amount each
  iteration, so they are modelled with a fuel parameter large enough to
  never be exhausted on the loops' actual arguments (record sizes 784 and
  1, header steps of 4 bytes); fuel exhaustion is a distinguished error.
- `Promise.all` in `loadData` is modelled by sequencing the four results
  in `Except`: the combined operation fails iff any component fails, and
  the instance fields are assigned only after all four succeed.
-/

namespace MnistCore

/-- Error outcomes of the embedded operations (thrown exceptions in JS). -/
inductive MnistErr : Type where
  | fetchError : MnistErr
  | outOfRange : MnistErr
  | typeError : MnistErr
  | noFuel : MnistErr
deriving DecidableEq, Repr

/-- Decidable equality for `Except` results, so that concrete runs of the
embedded operations can be checked by `decide`. -/
instance {ε α : Type} [DecidableEq ε] [DecidableEq α] : DecidableEq (Except ε α) :=
  fun x y =>
    match x, y with
    | .ok a, .ok b =>
      match decEq a b with
      | isTrue h => isTrue (by rw [h])
      | isFalse h => isFalse (by intro hc; cases hc; exact h rfl)
    | .error e, .error e2 =>
      match decEq e e2 with
      | isTrue h => isTrue (by rw [h])
      | isFalse h => isFalse (by intro hc; cases hc; exact h rfl)
    | .ok _, .error _ => isFalse (by intro hc; cases hc)
    | .error _, .ok _ => isFalse (by intro hc; cases hc)

def IMAGE_HEIGHT : Nat := 28
def IMAGE_WIDTH : Nat := 28
def IMAGE_HEADER_BYTES : Nat := 16
def IMAGE_FLAT_SIZE : Nat := IMAGE_HEIGHT * IMAGE_WIDTH
def LABEL_HEADER_BYTES : Nat := 8
def LABEL_RECORD_BYTE : Nat := 1
def LABEL_FLAT_SIZE : Nat := 10

/-- `buffer.readUInt8(i)`: the byte at offset `i`, or a thrown range error. -/
def readUInt8 (buffer : List Nat) (i : Nat) : Except MnistErr Nat :=
  match buffer[i]? with
  | some b => .ok b
  | none => .error .outOfRange

/-- `buffer.readUInt32BE(off)`: big-endian unsigned 32-bit value made of the
four bytes at offsets `off .. off+3`, or a thrown range error. -/
def readUInt32BE (buffer : List Nat) (off : Nat) : Except MnistErr Nat := do
  let b0 ← readUInt8 buffer off
  let b1 ← readUInt8 buffer (off + 1)
  let b2 ← readUInt8 buffer (off + 2)
  let b3 ← readUInt8 buffer (off + 3)
  pure (b0 * 2 ^ 24 + b1 * 2 ^ 16 + b2 * 2 ^ 8 + b3)

/-- Statement-side characterization (following the spec's words): the
big-endian unsigned 32-bit interpretation of the 4-byte slice starting at
`off`, to be compared with what `readUInt32BE`/`loadHeaderValues` compute. -/
def be32 (buffer : List Nat) (off : Nat) : Nat :=
  buffer.getD off 0 * 2 ^ 24 + buffer.getD (off + 1) 0 * 2 ^ 16 +
    buffer.getD (off + 2) 0 * 2 ^ 8 + buffer.getD (off + 3) 0

/-- The loop of `loadHeaderValues`: `for (let i = 0; i < headerLength / 4; i++)`
(over integers `i < headerLength / 4` is exactly `i * 4 < headerLength`). -/
def loadHeaderLoop (buffer : List Nat) (headerLength : Nat) :
    Nat → Nat → Except MnistErr (List Nat)
  | 0, _ => .error .noFuel
  | fuel + 1, i =>
    if i * 4 < headerLength then do
      let v ← readUInt32BE buffer (i * 4)
      let rest ← loadHeaderLoop buffer headerLength fuel (i + 1)
      pure (v :: rest)
    else
      .ok []

/-- `loadHeaderValues(buffer, headerLength)`. The loop runs at most
`headerLength` times, so fuel `headerLength + 1` is never exhausted. -/
def loadHeaderValues (buffer : List Nat) (headerLength : Nat) :
    Except MnistErr (List Nat) :=
  loadHeaderLoop buffer headerLength (headerLength + 1) 0

/-- The inner `for (let i = 0; i < recordBytes; i++)` loop of both decoders:
read `n` consecutive bytes starting at `index`, applying `f` to each
(`f` is the per-byte conversion: `/ 255.0` for images, identity for labels). -/
def readRecord (f : Nat → α) (buffer : List Nat) : Nat → Nat → Except MnistErr (List α)
  | _, 0 => .ok []
  | index, n + 1 => do
    let b ← readUInt8 buffer index
    let rest ← readRecord f buffer (index + 1) n
    pure (f b :: rest)

/-- The outer `while (index < buffer.byteLength)` loop shared (textually
duplicated) by `loadImages` and `loadLabels`: repeatedly consume one
`recordBytes`-sized record until the buffer is exhausted. -/
def decodeLoop (f : Nat → α) (buffer : List Nat) (recordBytes : Nat) :
    Nat → Nat → Except MnistErr (List (List α))
  | 0, _ => .error .noFuel
  | fuel + 1, index =>
    if index < buffer.length then do
      let r ← readRecord f buffer index recordBytes
      let rest ← decodeLoop f buffer recordBytes fuel (index + recordBytes)
      pure (r :: rest)
    else
      .ok []

/-- Pixel normalization in `loadImages`:
`array[i] = buffer.readUInt8(index++) / 255.0`. -/
def normalizePixel (b : Nat) : ℚ := (b : ℚ) / 255

/-- The decode step of `loadImages`: skip the 16 header bytes, then read
784-byte records, normalizing each byte into [0, 1]. -/
def decodeImages (buffer : List Nat) : Except MnistErr (List (List ℚ)) :=
  decodeLoop normalizePixel buffer IMAGE_FLAT_SIZE (buffer.length + 1) IMAGE_HEADER_BYTES

/-- The decode step of `loadLabels`: skip the 8 header bytes, then read
1-byte records, each stored unconverted in a fresh `Int32Array(1)`. -/
def decodeLabels (buffer : List Nat) : Except MnistErr (List (List Nat)) :=
  decodeLoop (fun b => b) buffer LABEL_RECORD_BYTE (buffer.length + 1) LABEL_HEADER_BYTES

/-- `loadImages(url)` given the result of `fetchResource(url, true)`:
parse (and log) the header values, then decode the image records. -/
def loadImages (fetched : Except MnistErr (List Nat)) :
    Except MnistErr (List (List ℚ)) := do
  let buffer ← fetched
  let _headerValues ← loadHeaderValues buffer IMAGE_HEADER_BYTES
  decodeImages buffer

/-- `loadLabels(url)` given the result of `fetchResource(url, true)`. -/
def loadLabels (fetched : Except MnistErr (List Nat)) :
    Except MnistErr (List (List Nat)) := do
  let buffer ← fetched
  let _headerValues ← loadHeaderValues buffer LABEL_HEADER_BYTES
  decodeLabels buffer

/-- The mutable fields of class `MnistDataset`:
`dataset` is the 4-tuple `[trainImages, trainLabels, testImages, testLabels]`. -/
structure MnistState : Type where
  dataset : List (List ℚ) × List (List Nat) × List (List ℚ) × List (List Nat)
  trainSize : Nat
  testSize : Nat
  trainBatchIndex : Nat
  testBatchIndex : Nat
deriving DecidableEq, Repr

/-- The `MnistDataset` constructor: empty collections, zero sizes. -/
def MnistState.init : MnistState :=
  { dataset := ([], [], [], []), trainSize := 0, testSize := 0,
    trainBatchIndex := 0, testBatchIndex := 0 }

/-- `loadData`: `Promise.all` of the four fetch+decode operations; on joint
success assign `dataset`, `trainSize`, `testSize`. A rejection of any of the
four rejects the whole call before any field is assigned. -/
def MnistState.loadData (s : MnistState)
    (trainImagesFetch trainLabelsFetch testImagesFetch testLabelsFetch :
      Except MnistErr (List Nat)) : Except MnistErr MnistState := do
  let d0 ← loadImages trainImagesFetch
  let d1 ← loadLabels trainLabelsFetch
  let d2 ← loadImages testImagesFetch
  let d3 ← loadLabels testLabelsFetch
  pure { s with dataset := (d0, d1, d2, d3),
                trainSize := d0.length, testSize := d2.length }

/-- The observable state after a `loadData` call: on success the newly
assigned fields, on a thrown error the untouched previous state (the
assignments in the source all happen after the `await` resolves). -/
def MnistState.loadDataPost (s : MnistState)
    (f1 f2 f3 f4 : Except MnistErr (List Nat)) : MnistState :=
  match s.loadData f1 f2 f3 f4 with
  | .ok s2 => s2
  | .error _ => s

/-- `tf.util.sizeFromShape`: product of the dimensions. -/
def sizeFromShape (shape : List Nat) : Nat :=
  shape.foldl (fun a b => a * b) 1

/-- `TypedArray.set(src, offset)`: overwrite `src.length` elements starting
at `offset`; throws a range error when the source does not fit. -/
def typedArraySet (buf src : List α) (offset : Nat) : Except MnistErr (List α) :=
  if offset + src.length ≤ buf.length then
    .ok (buf.take offset ++ src ++ buf.drop (offset + src.length))
  else
    .error .outOfRange

/-- JS array indexing `a[i]` whose result is immediately passed to
`TypedArray.set`: an in-range element, or a `TypeError` (set of `undefined`). -/
def jsIndex (l : List α) (i : Nat) : Except MnistErr α :=
  match l[i]? with
  | some x => .ok x
  | none => .error .typeError

/-- `tf.oneHot` row for one index: at `depth` positions, 1 exactly at `idx`
(an out-of-range `idx` therefore yields an all-zero row, as in tfjs). -/
def oneHotRow (idx depth : Nat) : List ℚ :=
  (List.range depth).map (fun j => if j = idx then 1 else 0)

/-- `tf.oneHot(tensor1d(labels), depth).toFloat()`: one row per label. -/
def oneHot (labels : List Nat) (depth : Nat) : List (List ℚ) :=
  labels.map (fun l => oneHotRow l depth)

/-- The value of `ITrainDataSet` as produced by `getData_`: the flat image
buffer with its logical 4-D shape, and the one-hot label rows. -/
structure TrainDataSet : Type where
  xs : List ℚ
  xsShape : List Nat
  ys : List (List ℚ)
deriving DecidableEq, Repr

/-- The `for (let i = 0; i < size; ++i)` loop of `getData_`: copy image
record `i` at `imageOffset` and label record `i` at `labelOffset`, advancing
the offsets by `IMAGE_FLAT_SIZE` and 1. `rem` counts remaining iterations
(`rem = size - i` at entry). -/
def getDataLoop (imagesData : List (List ℚ)) (labelsData : List (List Nat)) :
    Nat → Nat → List ℚ → List Nat → Nat → Nat → Except MnistErr (List ℚ × List Nat)
  | 0, _, imagesBuf, labelsBuf, _, _ => .ok (imagesBuf, labelsBuf)
  | rem + 1, i, imagesBuf, labelsBuf, imageOffset, labelOffset => do
    let imgRec ← jsIndex imagesData i
    let imagesBuf2 ← typedArraySet imagesBuf imgRec imageOffset
    let labRec ← jsIndex labelsData i
    let labelsBuf2 ← typedArraySet labelsBuf labRec labelOffset
    getDataLoop imagesData labelsData rem (i + 1) imagesBuf2 labelsBuf2
      (imageOffset + IMAGE_FLAT_SIZE) (labelOffset + 1)

/-- `getData_(isTrainingData)`: select the split's collections from
`this.dataset`, allocate the flat buffers, run the copy loop, and build the
tensors. Reads only `this.dataset`; assigns no instance field. -/
def MnistState.getData_ (s : MnistState) (isTrainingData : Bool) :
    Except MnistErr TrainDataSet :=
  let imagesData := if isTrainingData then s.dataset.1 else s.dataset.2.2.1
  let labelsData := if isTrainingData then s.dataset.2.1 else s.dataset.2.2.2
  let size := imagesData.length
  let imagesShape : List Nat := [size, IMAGE_HEIGHT, IMAGE_WIDTH, 1]
  let images : List ℚ := List.replicate (sizeFromShape imagesShape) 0
  let labels : List Nat := List.replicate (sizeFromShape [size, 1]) 0
  match getDataLoop imagesData labelsData size 0 images labels 0 0 with
  | .error e => .error e
  | .ok (imagesBuf, labelsBuf) =>
    .ok { xs := imagesBuf, xsShape := imagesShape,
          ys := oneHot labelsBuf LABEL_FLAT_SIZE }

/-- `getTrainData()`. -/
def MnistState.getTrainData (s : MnistState) : Except MnistErr TrainDataSet :=
  s.getData_ true

/-- `getTestData()`. -/
def MnistState.getTestData (s : MnistState) : Except MnistErr TrainDataSet :=
  s.getData_ false

/-- State-threaded view of `getData_`: the method body contains no
assignment to any instance field, so the post-state is the pre-state. -/
def MnistState.getDataSt (s : MnistState) (isTrainingData : Bool) :
    Except MnistErr TrainDataSet × MnistState :=
  (s.getData_ isTrainingData, s)

/-- Projection: the image-buffer length of a `getData_` result. -/
def xsLenOf (r : Except MnistErr TrainDataSet) : Option Nat :=
  r.toOption.map (fun o => o.xs.length)

/-- Projection: the image buffer of a `getData_` result. -/
def xsOf (r : Except MnistErr TrainDataSet) : Option (List ℚ) :=
  r.toOption.map (fun o => o.xs)

/-- Projection: the one-hot label rows of a `getData_` result. -/
def ysOf (r : Except MnistErr TrainDataSet) : Option (List (List ℚ)) :=
  r.toOption.map (fun o => o.ys)

/-! ### Basic lemmas about the `Except` plumbing and byte reads -/

theorem exceptBind_ok {ε α β : Type} (a : α) (g : α → Except ε β) :
    (Except.ok a >>= g) = g a := rfl

theorem exceptBind_err {ε α β : Type} (e : ε) (g : α → Except ε β) :
    ((Except.error e : Except ε α) >>= g) = .error e := rfl

theorem exceptPure {ε α : Type} (a : α) : (pure a : Except ε α) = .ok a := rfl

theorem readUInt8_ok {buffer : List Nat} {i : Nat} (h : i < buffer.length) :
    readUInt8 buffer i = .ok buffer[i] := by
  simp [readUInt8, List.getElem?_eq_getElem h]

theorem readUInt8_err {buffer : List Nat} {i : Nat} (h : buffer.length ≤ i) :
    readUInt8 buffer i = .error .outOfRange := by
  simp [readUInt8, List.getElem?_eq_none h]

theorem readUInt32BE_ok {buffer : List Nat} {off : Nat} (h : off + 4 ≤ buffer.length) :
    readUInt32BE buffer off = .ok (be32 buffer off) := by
  have h0 : off < buffer.length := by omega
  have h1 : off + 1 < buffer.length := by omega
  have h2 : off + 2 < buffer.length := by omega
  have h3 : off + 3 < buffer.length := by omega
  simp only [readUInt32BE, readUInt8_ok h0, readUInt8_ok h1, readUInt8_ok h2,
    readUInt8_ok h3, exceptBind_ok, exceptPure, be32, List.getD_eq_getElem?_getD,
    List.getElem?_eq_getElem, h0, h1, h2, h3, Option.getD_some]

/-! ### Lemmas about the record-decoding loops -/

theorem readRecord_ok {α : Type} (f : Nat → α) (buffer : List Nat) :
    ∀ (n index : Nat), index + n ≤ buffer.length →
      readRecord f buffer index n = .ok (((buffer.drop index).take n).map f) := by
  intro n
  induction n with
  | zero => intro index _; simp [readRecord]
  | succ n ih =>
    intro index h
    have hidx : index < buffer.length := by omega
    rw [readRecord, readUInt8_ok hidx, exceptBind_ok, ih (index + 1) (by omega),
      exceptBind_ok, exceptPure, List.drop_eq_getElem_cons hidx]
    simp only [List.take_succ_cons, List.map_cons]

theorem readRecord_err {α : Type} (f : Nat → α) (buffer : List Nat) :
    ∀ (n index : Nat), 0 < n → buffer.length < index + n →
      readRecord f buffer index n = .error .outOfRange := by
  intro n
  induction n with
  | zero => intro index h0 _; omega
  | succ n ih =>
    intro index _ hlen
    by_cases hidx : index < buffer.length
    · cases Nat.eq_zero_or_pos n with
      | inl h0 => omega
      | inr hpos =>
        rw [readRecord, readUInt8_ok hidx, exceptBind_ok,
          ih (index + 1) hpos (by omega), exceptBind_err]
    · rw [readRecord, readUInt8_err (by omega), exceptBind_err]

theorem readRecord_length {α : Type} (f : Nat → α) (buffer : List Nat) :
    ∀ (n index : Nat) (r : List α),
      readRecord f buffer index n = .ok r → r.length = n := by
  intro n
  induction n with
  | zero =>
    intro index r h
    rw [readRecord] at h
    cases h
    rfl
  | succ n ih =>
    intro index r h
    rw [readRecord] at h
    cases hb : readUInt8 buffer index with
    | error e => rw [hb, exceptBind_err] at h; cases h
    | ok b =>
      rw [hb, exceptBind_ok] at h
      cases hrest : readRecord f buffer (index + 1) n with
      | error e => rw [hrest, exceptBind_err] at h; cases h
      | ok rest =>
        rw [hrest, exceptBind_ok, exceptPure] at h
        cases h
        simp [ih (index + 1) rest hrest]

theorem decodeLoop_ok {α : Type} (f : Nat → α) (buffer : List Nat) (rb : Nat)
    (hrb : 0 < rb) :
    ∀ (k fuel index : Nat), buffer.length = index + rb * k → k < fuel →
      decodeLoop f buffer rb fuel index =
        .ok ((List.range k).map fun i =>
          ((buffer.drop (index + rb * i)).take rb).map f) := by
  intro k
  induction k with
  | zero =>
    intro fuel index hlen hfuel
    cases fuel with
    | zero => omega
    | succ fuel =>
      have hidx : ¬ index < buffer.length := by omega
      rw [decodeLoop, if_neg hidx]
      simp
  | succ k ih =>
    intro fuel index hlen hfuel
    cases fuel with
    | zero => omega
    | succ fuel =>
      have hmul : rb * (k + 1) = rb * k + rb := by ring
      rw [hmul] at hlen
      have hidx : index < buffer.length := by omega
      have hrecord : index + rb ≤ buffer.length := by omega
      rw [decodeLoop, if_pos hidx, readRecord_ok f buffer rb index hrecord,
        exceptBind_ok, ih fuel (index + rb) (by omega) (by omega), exceptBind_ok,
        exceptPure, List.range_succ_eq_map]
      simp only [List.map_cons, List.map_map, Nat.mul_zero, Nat.add_zero,
        Except.ok.injEq, List.cons.injEq, true_and]
      apply List.map_congr_left
      intro a _
      have harith : index + rb * (a + 1) = index + rb + rb * a := by ring
      simp [Function.comp, harith]

theorem decodeLoop_err {α : Type} (f : Nat → α) (buffer : List Nat) (rb r : Nat)
    (hrb : 0 < rb) (hr0 : 0 < r) (hrlt : r < rb) :
    ∀ (k fuel index : Nat), buffer.length = index + rb * k + r → k < fuel →
      decodeLoop f buffer rb fuel index = .error .outOfRange := by
  intro k
  induction k with
  | zero =>
    intro fuel index hlen hfuel
    cases fuel with
    | zero => omega
    | succ fuel =>
      have hidx : index < buffer.length := by omega
      rw [decodeLoop, if_pos hidx,
        readRecord_err f buffer rb index hrb (by omega), exceptBind_err]
  | succ k ih =>
    intro fuel index hlen hfuel
    cases fuel with
    | zero => omega
    | succ fuel =>
      have hmul : rb * (k + 1) = rb * k + rb := by ring
      rw [hmul] at hlen
      have hidx : index < buffer.length := by omega
      rw [decodeLoop, if_pos hidx, readRecord_ok f buffer rb index (by omega),
        exceptBind_ok, ih fuel (index + rb) (by omega) (by omega), exceptBind_err]

theorem decodeLoop_records {α : Type} (f : Nat → α) (buffer : List Nat) (rb : Nat) :
    ∀ (fuel index : Nat) (recs : List (List α)),
      decodeLoop f buffer rb fuel index = .ok recs →
        ∀ r2 ∈ recs, r2.length = rb := by
  intro fuel
  induction fuel with
  | zero => intro index recs h; rw [decodeLoop] at h; cases h
  | succ fuel ih =>
    intro index recs h
    by_cases hidx : index < buffer.length
    · rw [decodeLoop, if_pos hidx] at h
      cases hrec : readRecord f buffer index rb with
      | error e => rw [hrec, exceptBind_err] at h; cases h
      | ok r1 =>
        rw [hrec, exceptBind_ok] at h
        cases hrest : decodeLoop f buffer rb fuel (index + rb) with
        | error e => rw [hrest, exceptBind_err] at h; cases h
        | ok rest =>
          rw [hrest, exceptBind_ok, exceptPure] at h
          cases h
          intro r2 hr2
          cases List.mem_cons.mp hr2 with
          | inl heq => rw [heq]; exact readRecord_length f buffer rb index r1 hrec
          | inr hmem => exact ih (index + rb) rest hrest r2 hmem
    · rw [decodeLoop, if_neg hidx] at h
      cases h
      intro r2 hr2
      cases hr2

/-! ### Claim C5: header parsing -/

theorem loadHeaderLoop_ok (buffer : List Nat) (h : Nat) (hle : h ≤ buffer.length) :
    ∀ (n fuel i : Nat), 4 * (i + n) = h → n < fuel →
      loadHeaderLoop buffer h fuel i =
        .ok ((List.range n).map fun j => be32 buffer (4 * (i + j))) := by
  intro n
  induction n with
  | zero =>
    intro fuel i hn hfuel
    cases fuel with
    | zero => omega
    | succ fuel =>
      have hcond : ¬ i * 4 < h := by omega
      rw [loadHeaderLoop, if_neg hcond]
      simp
  | succ n ih =>
    intro fuel i hn hfuel
    cases fuel with
    | zero => omega
    | succ fuel =>
      have hcond : i * 4 < h := by omega
      have hbytes : i * 4 + 4 ≤ buffer.length := by omega
      rw [loadHeaderLoop, if_pos hcond, readUInt32BE_ok hbytes, exceptBind_ok,
        ih fuel (i + 1) (by omega) (by omega), exceptBind_ok, exceptPure,
        List.range_succ_eq_map]
      simp only [List.map_cons, List.map_map, Nat.add_zero, Except.ok.injEq,
        List.cons.injEq]
      constructor
      · rw [Nat.mul_comm]
      · apply List.map_congr_left
        intro a _
        have harith : 4 * (i + (a + 1)) = 4 * (i + 1 + a) := by ring
        simp [Function.comp, harith]

/-- C5: for every buffer and every header byte count `h` that is a positive
multiple of 4 with `h ≤ buffer.length`, `loadHeaderValues` returns exactly
`h / 4` values, the `i`-th being the big-endian unsigned 32-bit
interpretation of the byte slice starting at offset `4 * i`. -/
theorem C5_loadHeaderValues_bigEndian (buffer : List Nat) (h : Nat)
    (hmod : h % 4 = 0) (hpos : 0 < h) (hle : h ≤ buffer.length) :
    loadHeaderValues buffer h =
      .ok ((List.range (h / 4)).map fun i => be32 buffer (4 * i))
    ∧ ((List.range (h / 4)).map fun i => be32 buffer (4 * i)).length = h / 4 := by
  constructor
  · have hdvd : 4 ∣ h := Nat.dvd_of_mod_eq_zero hmod
    have hn : 4 * (0 + h / 4) = h := by
      rw [Nat.zero_add, Nat.mul_div_cancel' hdvd]
    have hfuel : h / 4 < h + 1 := by
      have := Nat.div_le_self h 4
      omega
    rw [loadHeaderValues, loadHeaderLoop_ok buffer h hle (h / 4) (h + 1) 0 hn hfuel]
    simp
  · simp

/-- C5 witness: the 8-byte header `[0,0,8,1,0,0,0,2]` parses to the two
values 2049 and 2. -/
theorem C5_witness :
    (8 % 4 = 0 ∧ 0 < 8 ∧ 8 ≤ ([0, 0, 8, 1, 0, 0, 0, 2] : List Nat).length) ∧
    loadHeaderValues [0, 0, 8, 1, 0, 0, 0, 2] 8 = .ok [2049, 2] := by
  refine ⟨by decide, ?_⟩
  rw [(C5_loadHeaderValues_bigEndian [0, 0, 8, 1, 0, 0, 0, 2] 8 (by decide)
    (by decide) (by decide)).1]
  decide

/-! ### Claim C1: the image decode step -/

/-- C1: for every byte buffer of length `16 + 784 * k`, the decode step of
`loadImages` returns exactly `k` records — the count determined by the
actual byte length, whatever the header bytes declare — each of length 784,
whose `j`-th value is the raw byte at offset `16 + 784 * i + j` divided by
255 (so byte 0 maps to 0 and byte 255 maps to 1). -/
theorem C1_decodeImages_wellformed (buffer : List Nat) (k : Nat)
    (hlen : buffer.length = IMAGE_HEADER_BYTES + IMAGE_FLAT_SIZE * k) :
    decodeImages buffer =
      .ok ((List.range k).map fun i =>
        ((buffer.drop (IMAGE_HEADER_BYTES + IMAGE_FLAT_SIZE * i)).take
          IMAGE_FLAT_SIZE).map normalizePixel)
    ∧ (∀ recs, decodeImages buffer = .ok recs →
        recs.length = k ∧
        (∀ r2 ∈ recs, r2.length = IMAGE_FLAT_SIZE) ∧
        (∀ i j, i < k → j < IMAGE_FLAT_SIZE →
          recs[i]?.bind (fun r2 => r2[j]?) =
            (buffer[IMAGE_HEADER_BYTES + IMAGE_FLAT_SIZE * i + j]?).map
              normalizePixel))
    ∧ normalizePixel 0 = 0 ∧ normalizePixel 255 = 1 := by
  have hrb : 0 < IMAGE_FLAT_SIZE := by norm_num [IMAGE_FLAT_SIZE, IMAGE_HEIGHT, IMAGE_WIDTH]
  have hfuel : k < buffer.length + 1 := by
    have : IMAGE_FLAT_SIZE * k = 784 * k := by
      norm_num [IMAGE_FLAT_SIZE, IMAGE_HEIGHT, IMAGE_WIDTH]
    omega
  have hmain : decodeImages buffer =
      .ok ((List.range k).map fun i =>
        ((buffer.drop (IMAGE_HEADER_BYTES + IMAGE_FLAT_SIZE * i)).take
          IMAGE_FLAT_SIZE).map normalizePixel) := by
    rw [decodeImages]
    exact decodeLoop_ok normalizePixel buffer IMAGE_FLAT_SIZE hrb k
      (buffer.length + 1) IMAGE_HEADER_BYTES hlen hfuel
  refine ⟨hmain, ?_, by norm_num [normalizePixel], by norm_num [normalizePixel]⟩
  intro recs hrecs
  rw [hmain] at hrecs
  cases hrecs
  refine ⟨by simp, ?_, ?_⟩
  · intro r2 hr2
    have := decodeLoop_records normalizePixel buffer IMAGE_FLAT_SIZE
      (buffer.length + 1) IMAGE_HEADER_BYTES _ (by rw [← decodeImages, hmain]) r2 hr2
    exact this
  · intro i j hi hj
    have c784 : IMAGE_FLAT_SIZE = 784 := by
      norm_num [IMAGE_FLAT_SIZE, IMAGE_HEIGHT, IMAGE_WIDTH]
    have c16 : IMAGE_HEADER_BYTES = 16 := rfl
    have hoff : IMAGE_HEADER_BYTES + IMAGE_FLAT_SIZE * i + j < buffer.length := by
      simp only [c784, c16] at hlen hj ⊢
      omega
    simp [List.getElem?_map, List.getElem?_range hi, List.getElem?_take_of_lt hj,
      List.getElem?_drop, List.getElem?_eq_getElem hoff]

/-- C1 witness: a 16-byte buffer (header only, length `16 + 784 * 0`)
decodes to zero image records. -/
theorem C1_witness :
    ((List.replicate 16 0 : List Nat).length = IMAGE_HEADER_BYTES + IMAGE_FLAT_SIZE * 0) ∧
    decodeImages (List.replicate 16 0) = .ok [] := by
  refine ⟨by decide, ?_⟩
  rw [(C1_decodeImages_wellformed (List.replicate 16 0) 0 (by decide)).1]
  decide

/-! ### Claim C4: the label decode step -/

/-- C4: for every byte buffer of length `8 + k`, the decode step of
`loadLabels` returns exactly `k` records, the `i`-th holding — unconverted —
the raw byte at offset `8 + i`. -/
theorem C4_decodeLabels_wellformed (buffer : List Nat) (k : Nat)
    (hlen : buffer.length = LABEL_HEADER_BYTES + k) :
    decodeLabels buffer =
      .ok ((List.range k).map fun i => (buffer.drop (LABEL_HEADER_BYTES + i)).take 1)
    ∧ (∀ recs, decodeLabels buffer = .ok recs →
        recs.length = k ∧
        (∀ i, i < k →
          recs[i]?.bind (fun r2 => r2[0]?) = buffer[LABEL_HEADER_BYTES + i]?)) := by
  have hmain : decodeLabels buffer =
      .ok ((List.range k).map fun i => (buffer.drop (LABEL_HEADER_BYTES + i)).take 1) := by
    rw [decodeLabels]
    rw [decodeLoop_ok (fun b => b) buffer LABEL_RECORD_BYTE (by decide) k
      (buffer.length + 1) LABEL_HEADER_BYTES (by
        simp only [LABEL_RECORD_BYTE, Nat.one_mul]
        exact hlen) (by omega)]
    simp [LABEL_RECORD_BYTE]
  refine ⟨hmain, ?_⟩
  intro recs hrecs
  rw [hmain] at hrecs
  cases hrecs
  refine ⟨by simp, ?_⟩
  intro i hi
  have hoff : LABEL_HEADER_BYTES + i < buffer.length := by
    have c8 : LABEL_HEADER_BYTES = 8 := rfl
    simp only [c8] at hlen ⊢
    omega
  simp [List.getElem?_map, List.getElem?_range hi, List.getElem?_take_of_lt,
    List.getElem?_drop, List.getElem?_eq_getElem hoff]

/-- C4 witness: the spec's concrete scenario — header `[0,0,8,1][0,0,0,2]`
followed by label bytes `[3,7]` decodes to exactly the labels 3 and 7. -/
theorem C4_witness :
    (([0, 0, 8, 1, 0, 0, 0, 2, 3, 7] : List Nat).length = LABEL_HEADER_BYTES + 2) ∧
    decodeLabels [0, 0, 8, 1, 0, 0, 0, 2, 3, 7] = .ok [[3], [7]] := by
  refine ⟨by decide, ?_⟩
  rw [(C4_decodeLabels_wellformed [0, 0, 8, 1, 0, 0, 0, 2, 3, 7] 2 (by decide)).1]
  decide

/-! ### Claim C6: trailing partial records -/

/-- C6: when the bytes after the header do not form whole records, the
image decoder signals an out-of-range error (the attempted read past the
buffer end throws) instead of emitting a padded record; and on any
successful decode, every emitted image record has exactly 784 values and
every label record exactly 1 value — no record is ever silently padded.
(For the label decoder the record size is 1, so a partial trailing record
cannot arise.) -/
theorem C6_partial_record_flagged (buffer : List Nat) (k r : Nat)
    (hr0 : 0 < r) (hrlt : r < IMAGE_FLAT_SIZE)
    (hlen : buffer.length = IMAGE_HEADER_BYTES + IMAGE_FLAT_SIZE * k + r) :
    decodeImages buffer = .error .outOfRange
    ∧ (∀ buffer2 recs, decodeImages buffer2 = .ok recs →
        ∀ r2 ∈ recs, r2.length = IMAGE_FLAT_SIZE)
    ∧ (∀ buffer2 recs, decodeLabels buffer2 = .ok recs →
        ∀ r2 ∈ recs, r2.length = LABEL_RECORD_BYTE) := by
  refine ⟨?_, ?_, ?_⟩
  · have hrb : 0 < IMAGE_FLAT_SIZE := by
      norm_num [IMAGE_FLAT_SIZE, IMAGE_HEIGHT, IMAGE_WIDTH]
    have hfuel : k < buffer.length + 1 := by
      have c784 : IMAGE_FLAT_SIZE = 784 := by
        norm_num [IMAGE_FLAT_SIZE, IMAGE_HEIGHT, IMAGE_WIDTH]
      simp only [c784] at hlen
      omega
    rw [decodeImages]
    exact decodeLoop_err normalizePixel buffer IMAGE_FLAT_SIZE r hrb hr0 hrlt k
      (buffer.length + 1) IMAGE_HEADER_BYTES hlen hfuel
  · intro buffer2 recs hrecs
    rw [decodeImages] at hrecs
    exact decodeLoop_records normalizePixel buffer2 IMAGE_FLAT_SIZE
      (buffer2.length + 1) IMAGE_HEADER_BYTES recs hrecs
  · intro buffer2 recs hrecs
    rw [decodeLabels] at hrecs
    exact decodeLoop_records (fun b => b) buffer2 LABEL_RECORD_BYTE
      (buffer2.length + 1) LABEL_HEADER_BYTES recs hrecs

/-- C6 witness: a 17-byte image buffer (one stray byte after the header)
makes the image decoder throw rather than emit a padded record. -/
theorem C6_witness :
    (0 < 1 ∧ 1 < IMAGE_FLAT_SIZE ∧
      (List.replicate 17 0 : List Nat).length =
        IMAGE_HEADER_BYTES + IMAGE_FLAT_SIZE * 0 + 1) ∧
    decodeImages (List.replicate 17 0) = .error .outOfRange :=
  ⟨⟨by decide, by decide, by decide⟩,
    (C6_partial_record_flagged (List.replicate 17 0) 0 1 (by decide) (by decide)
      (by decide)).1⟩

/-! ### Claim C3: all-or-nothing loading -/

/-- C3: if any of the four fetch/decode operations of `loadData` fails, the
call fails and the observable dataset state is exactly the pre-call state;
and a successful call commits exactly the four decoded collections (never a
mixture of old and new records). -/
theorem C3_loadData_atomic (s : MnistState) (f1 f2 f3 f4 : Except MnistErr (List Nat)) :
    (((loadImages f1).isOk = false ∨ (loadLabels f2).isOk = false ∨
      (loadImages f3).isOk = false ∨ (loadLabels f4).isOk = false) →
      (s.loadData f1 f2 f3 f4).isOk = false ∧ s.loadDataPost f1 f2 f3 f4 = s)
    ∧ (∀ s2, s.loadData f1 f2 f3 f4 = .ok s2 →
        ∃ d0 d1 d2 d3, loadImages f1 = .ok d0 ∧ loadLabels f2 = .ok d1 ∧
          loadImages f3 = .ok d2 ∧ loadLabels f4 = .ok d3 ∧
          s2 = { s with dataset := (d0, d1, d2, d3),
                        trainSize := d0.length, testSize := d2.length }) := by
  cases h1 : loadImages f1 with
  | error e =>
    rw [MnistState.loadDataPost, MnistState.loadData, h1, exceptBind_err]
    exact ⟨fun _ => ⟨rfl, rfl⟩, fun s2 h => by cases h⟩
  | ok d0 =>
    cases h2 : loadLabels f2 with
    | error e =>
      rw [MnistState.loadDataPost, MnistState.loadData, h1, exceptBind_ok, h2,
        exceptBind_err]
      exact ⟨fun _ => ⟨rfl, rfl⟩, fun s2 h => by cases h⟩
    | ok d1 =>
      cases h3 : loadImages f3 with
      | error e =>
        rw [MnistState.loadDataPost, MnistState.loadData, h1, exceptBind_ok, h2,
          exceptBind_ok, h3, exceptBind_err]
        exact ⟨fun _ => ⟨rfl, rfl⟩, fun s2 h => by cases h⟩
      | ok d2 =>
        cases h4 : loadLabels f4 with
        | error e =>
          rw [MnistState.loadDataPost, MnistState.loadData, h1, exceptBind_ok, h2,
            exceptBind_ok, h3, exceptBind_ok, h4, exceptBind_err]
          exact ⟨fun _ => ⟨rfl, rfl⟩, fun s2 h => by cases h⟩
        | ok d3 =>
          rw [MnistState.loadDataPost, MnistState.loadData, h1, exceptBind_ok, h2,
            exceptBind_ok, h3, exceptBind_ok, h4, exceptBind_ok, exceptPure]
          constructor
          · intro hfail
            rcases hfail with hf | hf | hf | hf <;>
              simp [Except.isOk, Except.toBool] at hf
          · intro s2 h
            cases h
            exact ⟨d0, d1, d2, d3, rfl, rfl, rfl, rfl, rfl⟩

/-- C3 witness: with the train-image fetch failing (and the other three
resources well-formed), `loadData` fails and the freshly constructed state
is left untouched. -/
theorem C3_witness :
    (loadImages (.error .fetchError)).isOk = false ∧
    (MnistState.init.loadData (.error .fetchError) (.ok (List.replicate 9 0))
      (.ok (List.replicate 16 0)) (.ok (List.replicate 8 0))).isOk = false ∧
    MnistState.init.loadDataPost (.error .fetchError) (.ok (List.replicate 9 0))
      (.ok (List.replicate 16 0)) (.ok (List.replicate 8 0)) = MnistState.init := by
  have h := (C3_loadData_atomic MnistState.init (.error .fetchError)
    (.ok (List.replicate 9 0)) (.ok (List.replicate 16 0))
    (.ok (List.replicate 8 0))).1 (Or.inl (by decide))
  exact ⟨by decide, h.1, h.2⟩

/-! ### Claim C7: no image/label record-count consistency check -/

/-- C7: evidence that `loadData` performs no record-count consistency
check. Fed a 16-byte train-image file (zero records) together with a
9-byte train-label file (one record), it commits the mismatched dataset
(`trainSize = 0` alongside one train label) and reports success, instead
of failing with a record-count-mismatch error as the claim requires. -/
theorem C7_loadData_commits_mismatch :
    MnistState.init.loadData (.ok (List.replicate 16 0)) (.ok (List.replicate 9 0))
      (.ok (List.replicate 16 0)) (.ok (List.replicate 8 0))
      = .ok { dataset := ([], [[0]], [], []), trainSize := 0, testSize := 0,
              trainBatchIndex := 0, testBatchIndex := 0 }
    ∧ ([] : List (List ℚ)).length ≠ ([[0]] : List (List Nat)).length := by
  exact ⟨by decide, by decide⟩

/-! ### Lemmas about `oneHot` rows -/

theorem oneHotRow_succ (idx d : Nat) :
    oneHotRow idx (d + 1) = oneHotRow idx d ++ [if d = idx then (1 : ℚ) else 0] := by
  rw [oneHotRow, oneHotRow, List.range_succ, List.map_append]
  rfl

theorem oneHotRow_length (idx depth : Nat) : (oneHotRow idx depth).length = depth := by
  simp [oneHotRow]

theorem oneHotRow_sum_of_le (idx depth : Nat) (h : depth ≤ idx) :
    (oneHotRow idx depth).sum = 0 := by
  induction depth with
  | zero => simp [oneHotRow]
  | succ d ih =>
    rw [oneHotRow_succ, List.sum_append, ih (by omega)]
    have hne : d ≠ idx := by omega
    simp [hne]

theorem oneHotRow_sum (idx depth : Nat) (h : idx < depth) :
    (oneHotRow idx depth).sum = 1 := by
  induction depth with
  | zero => omega
  | succ d ih =>
    rw [oneHotRow_succ, List.sum_append]
    by_cases hd : idx < d
    · have hne : d ≠ idx := by omega
      simp [ih hd, hne]
    · have heq : d = idx := by omega
      rw [heq, oneHotRow_sum_of_le idx idx (Nat.le_refl idx)]
      simp

theorem oneHotRow_getElem (idx depth j : Nat) (h : j < depth) :
    (oneHotRow idx depth)[j]? = some (if j = idx then (1 : ℚ) else 0) := by
  rw [oneHotRow]
  simp [List.getElem?_map, List.getElem?_range h]

/-! ### Lemmas about flattening uniform-length records -/

theorem flatten_length_uniform {α : Type} (m : Nat) :
    ∀ (recs : List (List α)), (∀ r2 ∈ recs, r2.length = m) →
      recs.flatten.length = recs.length * m := by
  intro recs
  induction recs with
  | nil => intro _; simp
  | cons r rest ih =>
    intro h
    have hr : r.length = m := h r (List.mem_cons_self r rest)
    have hrest := ih (fun r2 hr2 => h r2 (List.mem_cons_of_mem r hr2))
    simp [hr, hrest, Nat.succ_mul, Nat.add_comm]

theorem flatten_drop_uniform {α : Type} (m : Nat) :
    ∀ (i : Nat) (recs : List (List α)), (∀ r2 ∈ recs, r2.length = m) →
      recs.flatten.drop (m * i) = (recs.drop i).flatten := by
  intro i
  induction i with
  | zero => intro recs _; simp
  | succ i ih =>
    intro recs h
    cases recs with
    | nil => simp
    | cons r rest =>
      have hr : r.length = m := h r (List.mem_cons_self r rest)
      have hsucc : m * (i + 1) = r.length + m * i := by rw [hr]; ring
      rw [List.flatten_cons, hsucc, List.drop_append,
        ih rest (fun r2 hr2 => h r2 (List.mem_cons_of_mem r hr2))]
      simp

theorem flatten_slice_uniform {α : Type} (m : Nat) (recs : List (List α))
    (h : ∀ r2 ∈ recs, r2.length = m) (i : Nat) (r2 : List α)
    (hi : recs[i]? = some r2) :
    (recs.flatten.drop (m * i)).take m = r2 := by
  have hilt : i < recs.length := by
    by_contra hge
    rw [List.getElem?_eq_none (by omega)] at hi
    cases hi
  have hr2 : recs[i] = r2 := by
    rw [List.getElem?_eq_getElem hilt] at hi
    cases hi
    rfl
  rw [flatten_drop_uniform m i recs h, List.drop_eq_getElem_cons hilt, hr2,
    List.flatten_cons]
  have hlen : r2.length = m := by
    rw [← hr2]
    exact h _ (List.getElem_mem hilt)
  rw [← hlen, List.take_left]

/-! ### The copy loop of `getData_` -/

theorem getDataLoop_invariant (imgs : List (List ℚ)) (ls : List Nat)
    (himg : ∀ r2 ∈ imgs, r2.length = IMAGE_FLAT_SIZE)
    (hls : ls.length = imgs.length) :
    ∀ (rem i : Nat) (imagesBuf : List ℚ) (labelsBuf : List Nat),
      i + rem = imgs.length →
      imagesBuf.length = IMAGE_FLAT_SIZE * imgs.length →
      labelsBuf.length = imgs.length →
      getDataLoop imgs (ls.map fun l => [l]) rem i imagesBuf labelsBuf
        (IMAGE_FLAT_SIZE * i) i
        = .ok (imagesBuf.take (IMAGE_FLAT_SIZE * i) ++ (imgs.drop i).flatten,
               labelsBuf.take i ++ ls.drop i) := by
  intro rem
  induction rem with
  | zero =>
    intro i imagesBuf labelsBuf hik hib hlb
    have hi : i = imgs.length := by omega
    rw [getDataLoop, List.drop_eq_nil_of_le (by omega),
      List.drop_eq_nil_of_le (by omega), List.flatten_nil, List.append_nil,
      List.append_nil, List.take_of_length_le (by rw [hib, hi]),
      List.take_of_length_le (by omega)]
  | succ rem ih =>
    intro i imagesBuf labelsBuf hik hib hlb
    have hi : i < imgs.length := by omega
    have hmul : IMAGE_FLAT_SIZE * (i + 1) ≤ IMAGE_FLAT_SIZE * imgs.length :=
      Nat.mul_le_mul_left _ hi
    rw [Nat.mul_succ] at hmul
    have hji : jsIndex imgs i = .ok imgs[i] := by
      rw [jsIndex, List.getElem?_eq_getElem hi]
    have hrl : imgs[i].length = IMAGE_FLAT_SIZE := himg _ (List.getElem_mem hi)
    have hset1 : typedArraySet imagesBuf imgs[i] (IMAGE_FLAT_SIZE * i)
        = .ok (imagesBuf.take (IMAGE_FLAT_SIZE * i) ++ imgs[i]
            ++ imagesBuf.drop (IMAGE_FLAT_SIZE * i + IMAGE_FLAT_SIZE)) := by
      rw [typedArraySet, if_pos (by rw [hrl, hib]; omega), hrl]
    have hjl : jsIndex (ls.map fun l => [l]) i = .ok [ls[i]] := by
      rw [jsIndex, List.getElem?_map,
        List.getElem?_eq_getElem (show i < ls.length by omega), Option.map_some']
    have hset2 : typedArraySet labelsBuf [ls[i]] i
        = .ok (labelsBuf.take i ++ [ls[i]] ++ labelsBuf.drop (i + 1)) := by
      rw [typedArraySet, if_pos (by simp [hlb]; omega)]
      simp
    have hib2 : (imagesBuf.take (IMAGE_FLAT_SIZE * i) ++ imgs[i]
        ++ imagesBuf.drop (IMAGE_FLAT_SIZE * i + IMAGE_FLAT_SIZE)).length
        = IMAGE_FLAT_SIZE * imgs.length := by
      simp only [List.length_append, List.length_take, List.length_drop, hib, hrl]
      omega
    have hlb2 : (labelsBuf.take i ++ [ls[i]] ++ labelsBuf.drop (i + 1)).length
        = imgs.length := by
      simp only [List.length_append, List.length_take, List.length_drop, hlb,
        List.length_cons, List.length_nil]
      omega
    have harith : IMAGE_FLAT_SIZE * i + IMAGE_FLAT_SIZE = IMAGE_FLAT_SIZE * (i + 1) := by
      ring
    rw [harith] at hset1 hib2
    rw [getDataLoop, hji, exceptBind_ok, hset1, exceptBind_ok, hjl,
      exceptBind_ok, hset2, exceptBind_ok, harith,
      ih (i + 1) _ _ (by omega) hib2 hlb2]
    have himgtake : ((imagesBuf.take (IMAGE_FLAT_SIZE * i) ++ imgs[i]
        ++ imagesBuf.drop (IMAGE_FLAT_SIZE * (i + 1))).take (IMAGE_FLAT_SIZE * (i + 1)))
        = imagesBuf.take (IMAGE_FLAT_SIZE * i) ++ imgs[i] := by
      apply List.take_left'
      simp only [List.length_append, List.length_take, hib, hrl]
      omega
    have hlabtake : ((labelsBuf.take i ++ [ls[i]] ++ labelsBuf.drop (i + 1)).take (i + 1))
        = labelsBuf.take i ++ [ls[i]] := by
      apply List.take_left'
      simp only [List.length_append, List.length_take, hlb, List.length_cons,
        List.length_nil]
      omega
    rw [himgtake, hlabtake, List.drop_eq_getElem_cons hi, List.flatten_cons,
      List.drop_eq_getElem_cons (show i < ls.length by omega)]
    simp

theorem getData_main (s : MnistState) (b : Bool) (imgs : List (List ℚ))
    (ls : List Nat)
    (hsel1 : (if b then s.dataset.1 else s.dataset.2.2.1) = imgs)
    (hsel2 : (if b then s.dataset.2.1 else s.dataset.2.2.2) = ls.map fun l => [l])
    (himg : ∀ r2 ∈ imgs, r2.length = IMAGE_FLAT_SIZE)
    (hls : ls.length = imgs.length) :
    s.getData_ b = .ok { xs := imgs.flatten,
                         xsShape := [imgs.length, IMAGE_HEIGHT, IMAGE_WIDTH, 1],
                         ys := ls.map fun l => oneHotRow l LABEL_FLAT_SIZE } := by
  unfold MnistState.getData_
  rw [hsel1, hsel2]
  have hsz1 : sizeFromShape [imgs.length, IMAGE_HEIGHT, IMAGE_WIDTH, 1]
      = IMAGE_FLAT_SIZE * imgs.length := by
    simp [sizeFromShape, IMAGE_FLAT_SIZE, IMAGE_HEIGHT, IMAGE_WIDTH]
    ring
  have hsz2 : sizeFromShape [imgs.length, 1] = imgs.length := by
    simp [sizeFromShape]
  have hloop := getDataLoop_invariant imgs ls himg hls imgs.length 0
    (List.replicate (IMAGE_FLAT_SIZE * imgs.length) 0)
    (List.replicate imgs.length 0) (by omega) (by simp) (by simp)
  rw [Nat.mul_zero] at hloop
  simp only [List.take_zero, List.nil_append, List.drop_zero] at hloop
  simp only [hsz1, hsz2, hloop, oneHot]

/-- C2: on a dataset state whose selected split holds `k` image records of
784 pixels each and `k` labels, `getData_` succeeds with an image buffer of
length `k * 784` laying out record `i` contiguously at offset `784 * i` in
decode order, and a `k × 10` one-hot label matrix whose row `i` is 1 exactly
at index `label[i]` and 0 elsewhere, so each row sums to exactly 1. -/
theorem C2_getSplit_layout_oneHot (s : MnistState) (b : Bool)
    (imgs : List (List ℚ)) (ls : List Nat) (k : Nat)
    (hsel1 : (if b then s.dataset.1 else s.dataset.2.2.1) = imgs)
    (hsel2 : (if b then s.dataset.2.1 else s.dataset.2.2.2) = ls.map fun l => [l])
    (hk : imgs.length = k)
    (himg : ∀ r2 ∈ imgs, r2.length = IMAGE_FLAT_SIZE)
    (hls : ls.length = k)
    (hrange : ∀ l ∈ ls, l < LABEL_FLAT_SIZE) :
    s.getData_ b = .ok { xs := imgs.flatten,
                         xsShape := [k, IMAGE_HEIGHT, IMAGE_WIDTH, 1],
                         ys := ls.map fun l => oneHotRow l LABEL_FLAT_SIZE }
    ∧ imgs.flatten.length = k * IMAGE_FLAT_SIZE
    ∧ (∀ (i : Nat) (r2 : List ℚ), imgs[i]? = some r2 →
        (imgs.flatten.drop (IMAGE_FLAT_SIZE * i)).take IMAGE_FLAT_SIZE = r2)
    ∧ (ls.map fun l => oneHotRow l LABEL_FLAT_SIZE).length = k
    ∧ (∀ row ∈ ls.map fun l => oneHotRow l LABEL_FLAT_SIZE,
        row.length = LABEL_FLAT_SIZE)
    ∧ (∀ (i l2 : Nat), ls[i]? = some l2 →
        (ls.map fun l => oneHotRow l LABEL_FLAT_SIZE)[i]? =
          some (oneHotRow l2 LABEL_FLAT_SIZE) ∧
        (oneHotRow l2 LABEL_FLAT_SIZE).sum = 1 ∧
        (oneHotRow l2 LABEL_FLAT_SIZE)[l2]? = some 1 ∧
        (∀ j, j < LABEL_FLAT_SIZE → j ≠ l2 →
          (oneHotRow l2 LABEL_FLAT_SIZE)[j]? = some 0)) := by
  subst hk
  refine ⟨getData_main s b imgs ls hsel1 hsel2 himg hls, ?_, ?_, by simp [hls], ?_, ?_⟩
  · rw [flatten_length_uniform IMAGE_FLAT_SIZE imgs himg]
  · intro i r2 hi
    exact flatten_slice_uniform IMAGE_FLAT_SIZE imgs himg i r2 hi
  · intro row hrow
    rcases List.mem_map.mp hrow with ⟨l, _, hmap⟩
    rw [← hmap, oneHotRow_length]
  · intro i l2 hi
    have hmem : l2 ∈ ls := List.getElem?_mem hi
    have hlt : l2 < LABEL_FLAT_SIZE := hrange l2 hmem
    refine ⟨?_, oneHotRow_sum l2 LABEL_FLAT_SIZE hlt, ?_, ?_⟩
    · simp [List.getElem?_map, hi]
    · rw [oneHotRow_getElem l2 LABEL_FLAT_SIZE l2 hlt]
      simp
    · intro j hj hne
      rw [oneHotRow_getElem l2 LABEL_FLAT_SIZE j hj]
      simp [hne]

set_option maxRecDepth 4000 in
/-- C2 witness: a train split with two 784-pixel records and labels 3 and 7
produces the one-hot rows `[0,0,0,1,0,0,0,0,0,0]` and
`[0,0,0,0,0,0,0,1,0,0]`, each summing to 1. -/
theorem C2_witness :
    (MnistState.getData_
        { dataset := ([List.replicate 784 0, List.replicate 784 0],
            [[3], [7]], [], []),
          trainSize := 2, testSize := 0, trainBatchIndex := 0,
          testBatchIndex := 0 } true)
      = .ok { xs := (([List.replicate 784 0, List.replicate 784 0] :
                List (List ℚ))).flatten,
              xsShape := [2, IMAGE_HEIGHT, IMAGE_WIDTH, 1],
              ys := [3, 7].map fun l => oneHotRow l LABEL_FLAT_SIZE }
    ∧ oneHotRow 3 LABEL_FLAT_SIZE = [0, 0, 0, 1, 0, 0, 0, 0, 0, 0]
    ∧ oneHotRow 7 LABEL_FLAT_SIZE = [0, 0, 0, 0, 0, 0, 0, 1, 0, 0]
    ∧ (oneHotRow 3 LABEL_FLAT_SIZE).sum = 1 := by
  refine ⟨?_, by decide, by decide,
    oneHotRow_sum 3 LABEL_FLAT_SIZE (by decide)⟩
  exact (C2_getSplit_layout_oneHot
    { dataset := ([List.replicate 784 0, List.replicate 784 0], [[3], [7]], [], []),
      trainSize := 2, testSize := 0, trainBatchIndex := 0, testBatchIndex := 0 }
    true [List.replicate 784 0, List.replicate 784 0] [3, 7] 2
    rfl rfl rfl (by decide) rfl (by decide)).1

/-! ### Claim C8: no label range check in `getData_` -/

set_option maxRecDepth 4000 in
/-- C8: evidence that `getData_` never range-checks label values against
`numClasses = 10`. On a loaded state holding the out-of-range label 12, the
call succeeds (no error is signalled) and silently produces a one-hot row
of all zeros — a row without the 1 entry — exactly what the claim says must
not happen. -/
theorem C8_no_label_range_check :
    ysOf (MnistState.getData_
      { dataset := ([List.replicate 784 0], [[12]], [], []),
        trainSize := 1, testSize := 0, trainBatchIndex := 0, testBatchIndex := 0 }
      true) = some [List.replicate 10 (0 : ℚ)]
    ∧ LABEL_FLAT_SIZE ≤ 12
    ∧ (∀ q ∈ List.replicate 10 (0 : ℚ), q ≠ 1) := by
  exact ⟨by decide, by decide, by decide⟩

/-! ### Claim C9: `getData_` is deterministic and mutation-free -/

/-- C9: the state-threaded view of `getData_` returns the pre-call state
unchanged (the method assigns no instance field), and its result is fully
determined by the `dataset` collections — so any two calls on states with
the same collections (in particular, repeated calls on one unchanged
state) return identical image and label buffers. -/
theorem C9_getSplit_pure (s t : MnistState) (b : Bool)
    (h : s.dataset = t.dataset) :
    (s.getDataSt b).2 = s ∧ (s.getDataSt b).1 = (t.getDataSt b).1 := by
  refine ⟨rfl, ?_⟩
  simp only [MnistState.getDataSt]
  unfold MnistState.getData_
  rw [h]

/-- C9 witness: on the freshly constructed state, `getData_` leaves the
state unchanged and two train-split reads agree. -/
theorem C9_witness :
    MnistState.init.dataset = MnistState.init.dataset ∧
    (MnistState.init.getDataSt true).2 = MnistState.init ∧
    (MnistState.init.getDataSt true).1 = (MnistState.init.getDataSt true).1 := by
  refine ⟨rfl, ?_, ?_⟩
  · exact (C9_getSplit_pure MnistState.init MnistState.init true rfl).1
  · exact (C9_getSplit_pure MnistState.init MnistState.init true rfl).2

/-! ### Claim C10: reads before any load succeed with empty results -/

/-- C10: on the freshly constructed dataset, `getTrainData` and
`getTestData` do not fail: each returns an empty image buffer with logical
shape `[0, 28, 28, 1]` and a label tensor with zero rows. -/
theorem C10_fresh_state_empty :
    MnistState.init.getTrainData
      = .ok { xs := [], xsShape := [0, 28, 28, 1], ys := [] }
    ∧ MnistState.init.getTestData
      = .ok { xs := [], xsShape := [0, 28, 28, 1], ys := [] } := by
  exact ⟨by decide, by decide⟩

end MnistCore
